import Mathlib

/-!
Verification of the growth-engine logic of `senn_mlp/experiment2_fixed.py`
(self-expanding neural networks).  Numeric quantities are embedded as exact
rationals; architecture bookkeeping is embedded over lists.  Each definition
mirrors the corresponding Python function; line references point into
`src/senn_mlp/experiment2_fixed.py`.
-/

namespace SENN

/-! ## Architecture bookkeeping: null masks and `Proposer.verify_state` -/

/-- `sum(~n)` for a boolean null mask `n`: the number of `false` (active)
entries.  Mirrors `jnp.sum(~n)` at line 750. -/
def countNotNull (null : List Bool) : Nat :=
  null.countP (fun b => !b)

/-- `Proposer.verify_state` (lines 746-753): for every layer, paired with its
null mask, whose content is set (not `None`), assert
`content == sum(~null)`.  The Python `assert` loop succeeds iff this
function returns `true`. -/
def verify_state (contents : List (Option Nat)) (nulls : List (List Bool)) : Bool :=
  (contents.zip nulls).all fun cn =>
    match cn.1 with
    | none => true
    | some c => c == countNotNull cn.2

/-! ## Growth gates (`consider_adding_width`, `consider_inserting_layer`) -/

/-- The record returned by a committed width growth (lines 987-991): the
softmax-weighted ratio, the grown layer's index, and the parameter state
with the selected feature already embedded by `proposer.embed_feature`. -/
structure WidthModification (σ : Type) where
  ratio : ℚ
  layer_index : Nat
  new_state : σ

/-- The record returned by a committed depth growth (lines 1008-1012). -/
structure DepthModification (σ : Type) where
  ratio : ℚ
  layer_index : Nat
  new_state : σ

/-- Decision tail of `consider_adding_width` (lines 1129-1190).  Its scalar
inputs are the quantities the Python code has computed at that point:
`best_raw` (softmax-weighted best raw r-metric), `layer_score` (the layer
baseline), `loss_sqnorm`, `baseline`, and the thresholds
`cfg["evo"]["thresh"]` / `cfg["evo"]["abs_thresh"]`; `embedded_state` is
`proposer.embed_feature(solver.state, best feature, layer_index)`. -/
def consider_adding_width (σ : Type) (thresh abs_thresh : ℚ)
    (best_raw layer_score loss_sqnorm baseline : ℚ) (layer_index : Nat)
    (embedded_state : σ) : Option (WidthModification σ) :=
  let best_ratio : ℚ := 1 + best_raw / baseline
  let best_local_ratio : ℚ := best_raw / layer_score
  let going_to_add := best_local_ratio > thresh ∧ best_raw / loss_sqnorm > abs_thresh
  if going_to_add then
    some ⟨best_ratio, layer_index, embedded_state⟩
  else
    none

/-- Decision tail of `consider_inserting_layer` (lines 1307-1327).
`cost_mul` is the final cost multiplier (`cfg["evo"]["layer_cost_mul"]`,
already multiplied by the new layer size when `size_costing` is on);
`vlayer_score` is the validation-batch layer baseline; the thresholds are
`cfg["evo"]["thresh"]` / `cfg["evo"]["layer_abs_thresh"]`; `embedded_state`
is `proposer.embed_layer(solver.state, best_feature, layer_index)`. -/
def consider_inserting_layer (σ : Type) (thresh layer_abs_thresh : ℚ)
    (best_raw vlayer_score loss_sqnorm baseline cost_mul : ℚ)
    (layer_index : Nat) (embedded_state : σ) : Option (DepthModification σ) :=
  let adjusted_metric : ℚ := best_raw / cost_mul
  if adjusted_metric / vlayer_score > thresh ∧
      adjusted_metric / loss_sqnorm > layer_abs_thresh then
    some ⟨1 + adjusted_metric / baseline, layer_index, embedded_state⟩
  else
    none

/-! ## Post-commit sanity checks -/

/-- `WidthModification.apply` (lines 993-1006) asserts
`new_loss / prev_loss < 1.001` after committing; `true` means the assertion
passes. -/
def width_sanity_ok (prev_loss new_loss : ℚ) : Bool :=
  decide (new_loss / prev_loss < 1.001)

/-- `DepthModification.apply` (lines 1014-1036) asserts
`new_loss / prev_loss < 1.2` after committing; `true` means the assertion
passes. -/
def depth_sanity_ok (prev_loss new_loss : ℚ) : Bool :=
  decide (new_loss / prev_loss < 1.2)

/-! ## MALA step-size controller -/

/-- Per-burst step-size update of `kfac_direct_mala` (lines 508-510):

    TARGET = 0.6
    changed_lr = where(accept_rate > TARGET, lr * 1.3, lr / 1.3)
    new_lr = where(abs(accept_rate - TARGET) > 0.3, changed_lr, lr)
-/
def mala_next_lr (accept_rate lr : ℚ) : ℚ :=
  let target : ℚ := 0.6
  let changed_lr := if accept_rate > target then lr * 1.3 else lr / 1.3
  if |accept_rate - target| > 0.3 then changed_lr else lr

/-! ## Deterministic feature optimizer step-size policy (`kfac_direct_sgd`) -/

/-- The float comparison `new_rscore / state.rscore > 1.0` from line 621,
over exact rationals.  The initial `rscore` is exactly `0.0`; IEEE division
by `+0.0` yields `+inf` (comparison true) when the numerator is positive and
`-inf`/`nan` (comparison false) otherwise, which the zero branch captures;
for a nonzero denominator the rational comparison agrees with the float
one. -/
def rscore_increased (new_rscore old_rscore : ℚ) : Bool :=
  if old_rscore = 0 then decide (0 < new_rscore)
  else decide (1 < new_rscore / old_rscore)

/-- The loop state of `kfac_direct_sgd` (lines 608-614), minus the feature
tree, which the step-size policy does not read. -/
structure SgdState where
  eps : ℚ
  rscore : ℚ

/-- One iteration of `body_fun` in `kfac_direct_sgd` (lines 616-624).
`new_rscore` is the r-score that `kfac_single_sgd` returns at this
iteration (abstracted as an input, since it is batch-dependent linear
algebra).  Note the source computes the next step size as
`jnp.where(rscore_increased, eps, eps / 3.0)` using the *function argument*
`eps` (the initial step size captured by the closure), not `state.eps`. -/
def sgd_body_fun (eps0 : ℚ) (new_rscore : ℚ) (s : SgdState) : SgdState :=
  { eps := if rscore_increased new_rscore s.rscore then eps0 else eps0 / 3,
    rscore := new_rscore }

/-- `jax.lax.fori_loop(0, steps, body_fun, init_state)` at line 626, with
`init_state = State(eps, 0.0, feature)`: fold `body_fun` over the sequence
of r-scores produced by the successive `kfac_single_sgd` calls. -/
def sgd_run (eps0 : ℚ) (rscores : List ℚ) : SgdState :=
  rscores.foldl (fun s ns => sgd_body_fun eps0 ns s) { eps := eps0, rscore := 0 }

/-! ## `ModelTemplate.in_out_indices` -/

/-- Index of the first entry of `l` that is not `None`
(`np.nonzero(arr != None)[0][0]`), if any. -/
def findFirstEnabled : List (Option Nat) → Option Nat
  | [] => none
  | some _ :: _ => some 0
  | none :: rest => (findFirstEnabled rest).map (· + 1)

/-- Index of the last entry of `l` that is not `None`
(`np.nonzero(arr != None)[0][-1]`), if any. -/
def lastEnabled : List (Option Nat) → Option Nat
  | [] => none
  | c :: rest =>
    match lastEnabled rest with
    | some j => some (j + 1)
    | none => if c.isSome then some 0 else none

/-- `in_index` of `in_out_indices` (lines 99-100):
`0 if len(preceding_enabled) == 0 else preceding_enabled[-1] + 1`. -/
def in_index_of (contents : List (Option Nat)) (layer_index : Nat) : Nat :=
  match lastEnabled (contents.take layer_index) with
  | none => 0
  | some i => i + 1

/-- `ModelTemplate.in_out_indices` (lines 96-104): with
`split_at = layer_index + 1`, the preceding slots are
`contents[:split_at][:-1]` (i.e. `contents.take layer_index` whenever
`layer_index < contents.length`) and `in_index` is one past the last
enabled one (0 if none); `out_index` is the first enabled slot of
`contents[split_at:]` offset by `split_at`.  Indexing an empty
`subsequent_enabled` raises in Python, embedded as `none`. -/
def in_out_indices (contents : List (Option Nat)) (layer_index : Nat) :
    Option (Nat × Nat) :=
  match findFirstEnabled (contents.drop (layer_index + 1)) with
  | none => none
  | some j => some (in_index_of contents layer_index, layer_index + 1 + j)

/-! ## `Proposer.embed_feature` -/

/-- A layer of the parameter tree as `embed_feature` sees it: the dormancy
flag (`Layer.dormant`), the null mask (`Layer.null`), and the per-capacity
parameter slots, `none` for an allocated-but-inactive placeholder. -/
structure EmbLayer (F : Type) where
  dormant : Bool
  null : List Bool
  slots : List (Option F)

/-- `null.argmax()` on a boolean vector with at least one `True` entry: the
index of the first `True` (line 656). -/
def firstTrueIdx (l : List Bool) : Nat :=
  l.findIdx (fun b => b)

/-- Modelled from the spec: `Layer.insert_feature` lives in `nets.py`, which
is not under `src/`; per the spec it splices the feature's parameters into
slot `idx`, activating that position.  Modelled as writing the feature into
slot `idx` and clearing the null flag there. -/
def insert_feature (F : Type) (layer : EmbLayer F) (f : F) (idx : Nat) :
    EmbLayer F :=
  { layer with
    null := layer.null.set idx false,
    slots := layer.slots.set idx (some f) }

/-- `Proposer.embed_feature` (lines 651-662): after the dormancy and
`null.any()` assertions, write `insert_feature` output into
`state["params"][f"layers_i"]`, leaving every other layer untouched.
A failed assertion (dormant layer, or no null slot left) is embedded as
`none`; an out-of-range `layer_index` (a `KeyError` in Python) likewise. -/
def embed_feature (F : Type) (state : List (EmbLayer F)) (f : F)
    (layer_index : Nat) : Option (List (EmbLayer F)) :=
  match state[layer_index]? with
  | none => none
  | some layer =>
    if layer.dormant then none
    else if layer.null.any (fun b => b) then
      some (state.set layer_index
        (insert_feature F layer f (firstTrueIdx layer.null)))
    else none

/-! ## Checkpoint restore guard -/

/-- `TrainState` (lines 812-816). -/
structure TrainState (σ : Type) where
  epoch : Nat
  contents : List (Option Nat)
  solver_state : σ

/-- The restore guard of `main` (lines 907-909):

    if initial_train_state.contents[-1] != initial_train_state.contents[-1]:
        print("output size changed")
        exit()

`true` means the program prints and exits without training.  Note both
sides of the comparison are the restored contents' final entry. -/
def restore_rejects (σ : Type) (ts : TrainState σ) : Bool :=
  decide (ts.contents.getLastD none ≠ ts.contents.getLastD none)

/-! ## `make_feature` / `locate_feature` -/

/-- A single-input single-output feature as built by `make_feature`
(lines 819-836): the three nonlinearity weights and the linear kernel and
bias (both 1×1, embedded as scalars). -/
structure Feature where
  w_const : ℚ
  w_lin : ℚ
  w_vec : ℚ
  kernel : ℚ
  bias : ℚ

/-- `make_feature(p, s, c, l, v)` (lines 819-836):
`kernel = 1 / (1e-6 + s)`, `bias = -p * kernel`. -/
def make_feature (p s c l v : ℚ) : Feature :=
  { w_const := c, w_lin := l, w_vec := v,
    kernel := 1 / (1e-6 + s),
    bias := -p * (1 / (1e-6 + s)) }

/-- `locate_linear(kernel, bias)` (lines 839-842):
`position = -bias / kernel`, `scale = 1 / (1e-6 + kernel)`. -/
def locate_linear (kernel bias : ℚ) : ℚ × ℚ :=
  (-bias / kernel, 1 / (1e-6 + kernel))

/-- `locate_feature(feature)` (lines 845-848). -/
def locate_feature (f : Feature) : ℚ × ℚ :=
  locate_linear f.kernel f.bias

/-! ## `Sampler` -/

/-- `Sampler` (lines 756-761), minus the key iterator: the permutation it
draws is passed to `batches` explicitly. -/
structure Sampler (α β : Type) where
  dataset : List α
  labels : List β
  batch_size : Option Nat

/-- `Sampler.num_batches` (lines 763-768). -/
def num_batches (α β : Type) (s : Sampler α β) : Nat :=
  match s.batch_size with
  | none => 1
  | some b => s.dataset.length / b

/-- `pindices[batch_num * batch_size :][: batch_size]` (line 778). -/
def bindices (pindices : List Nat) (batch_size batch_num : Nat) : List Nat :=
  (pindices.drop (batch_num * batch_size)).take batch_size

/-- `dataset[bindices, ...]` (lines 779-780): select the rows of `dataset`
at the given indices. -/
def select_rows (α : Type) (dataset : List α) (idxs : List Nat) : List α :=
  idxs.filterMap (fun i => dataset[i]?)

/-- `Sampler.batches` (lines 770-781).  `pindices` stands for
`jax.random.permutation(next(self.key_iter), DLEN)`, a permutation of
`0, ..., DLEN - 1` drawn from the key stream. -/
def batches (α β : Type) (s : Sampler α β) (pindices : List Nat) :
    List (List α × List β) :=
  match s.batch_size with
  | none => [(s.dataset, s.labels)]
  | some b =>
    (List.range (s.dataset.length / b)).map fun batch_num =>
      (select_rows α s.dataset (bindices pindices b batch_num),
       select_rows β s.labels (bindices pindices b batch_num))

/-! ## Theorems -/

/-- Claim C1: `Proposer.verify_state` succeeds if and only if, for every slot
whose content is set (not `None`), the slot's content equals the number of
false entries of that layer's null mask; any mismatch fails the assertion,
and disabled slots are not checked. -/
theorem verify_state_iff_contents_match (contents : List (Option Nat))
    (nulls : List (List Bool)) :
    verify_state contents nulls = true ↔
      ∀ (i : Nat) (c : Nat) (n : List Bool),
        contents[i]? = some (some c) → nulls[i]? = some n →
        c = countNotNull n := by
  induction contents generalizing nulls with
  | nil =>
    simp [verify_state]
  | cons hd tl ih =>
    cases nulls with
    | nil =>
      simp [verify_state]
    | cons nhd ntl =>
      constructor
      · intro h i c n hc hn
        simp only [verify_state, List.zip_cons_cons, List.all_cons,
          Bool.and_eq_true] at h
        cases i with
        | zero =>
          simp only [List.getElem?_cons_zero, Option.some.injEq] at hc hn
          subst hc hn
          simpa [Nat.beq_eq] using h.1
        | succ j =>
          simp only [List.getElem?_cons_succ] at hc hn
          exact (ih ntl).mp h.2 j c n hc hn
      · intro h
        simp only [verify_state, List.zip_cons_cons, List.all_cons,
          Bool.and_eq_true]
        refine ⟨?_, (ih ntl).mpr ?_⟩
        · cases hd with
          | none => rfl
          | some c =>
            have := h 0 c nhd (by simp) (by simp)
            simpa [Nat.beq_eq] using this
        · intro i c n hc hn
          exact h (i + 1) c n (by simpa using hc) (by simpa using hn)

/-- Witness for C1 at a concrete template and null-mask stack. -/
theorem verify_state_iff_contents_match_witness :
    verify_state [some 2, none] [[false, false, true], [true]] = true ↔
      ∀ (i : Nat) (c : Nat) (n : List Bool),
        ([some 2, none] : List (Option Nat))[i]? = some (some c) →
        ([[false, false, true], [true]] : List (List Bool))[i]? = some n →
        c = countNotNull n :=
  verify_state_iff_contents_match [some 2, none] [[false, false, true], [true]]

/-- Claim C2: `consider_adding_width` commits (returns a `WidthModification`
embedding the selected feature) iff the best local ratio exceeds the relative
threshold and the normalized best raw score exceeds the absolute threshold;
`consider_inserting_layer` commits iff the cost-adjusted metric over the
validation layer baseline exceeds the relative threshold and the
cost-adjusted metric over the loss squared-norm exceeds the layer absolute
threshold; otherwise each returns `none`. -/
theorem growth_gates_iff_thresholds (σ : Type)
    (thresh abs_thresh layer_abs_thresh : ℚ)
    (best_raw layer_score vlayer_score loss_sqnorm baseline cost_mul : ℚ)
    (li : Nat) (wstate dstate : σ) :
    ((consider_adding_width σ thresh abs_thresh best_raw layer_score
        loss_sqnorm baseline li wstate).isSome ↔
      best_raw / layer_score > thresh ∧ best_raw / loss_sqnorm > abs_thresh)
    ∧ (∀ m, consider_adding_width σ thresh abs_thresh best_raw layer_score
        loss_sqnorm baseline li wstate = some m →
        m.new_state = wstate ∧ m.layer_index = li)
    ∧ ((consider_inserting_layer σ thresh layer_abs_thresh best_raw
        vlayer_score loss_sqnorm baseline cost_mul li dstate).isSome ↔
      (best_raw / cost_mul) / vlayer_score > thresh ∧
        (best_raw / cost_mul) / loss_sqnorm > layer_abs_thresh)
    ∧ (∀ m, consider_inserting_layer σ thresh layer_abs_thresh best_raw
        vlayer_score loss_sqnorm baseline cost_mul li dstate = some m →
        m.new_state = dstate ∧ m.layer_index = li) := by
  have hw : consider_adding_width σ thresh abs_thresh best_raw layer_score
      loss_sqnorm baseline li wstate =
      if best_raw / layer_score > thresh ∧ best_raw / loss_sqnorm > abs_thresh
      then some ⟨1 + best_raw / baseline, li, wstate⟩ else none := rfl
  have hd : consider_inserting_layer σ thresh layer_abs_thresh best_raw
      vlayer_score loss_sqnorm baseline cost_mul li dstate =
      if (best_raw / cost_mul) / vlayer_score > thresh ∧
          (best_raw / cost_mul) / loss_sqnorm > layer_abs_thresh
      then some ⟨1 + (best_raw / cost_mul) / baseline, li, dstate⟩
      else none := rfl
  refine ⟨?_, ?_, ?_, ?_⟩
  · rw [hw]
    split <;> simp_all
  · intro m hm
    rw [hw] at hm
    split at hm
    · cases hm; exact ⟨rfl, rfl⟩
    · cases hm
  · rw [hd]
    split <;> simp_all
  · intro m hm
    rw [hd] at hm
    split at hm
    · cases hm; exact ⟨rfl, rfl⟩
    · cases hm

/-- Witness for C2 at concrete inputs. -/
theorem growth_gates_iff_thresholds_witness :
    ((consider_adding_width Nat 2 1 10 4 5 1 0 7).isSome ↔
      (10 : ℚ) / 4 > 2 ∧ (10 : ℚ) / 5 > 1)
    ∧ (∀ m, consider_adding_width Nat 2 1 10 4 5 1 0 7 = some m →
        m.new_state = 7 ∧ m.layer_index = 0)
    ∧ ((consider_inserting_layer Nat 2 1 10 4 5 1 1 0 7).isSome ↔
      ((10 : ℚ) / 1) / 4 > 2 ∧ ((10 : ℚ) / 1) / 5 > 1)
    ∧ (∀ m, consider_inserting_layer Nat 2 1 10 4 5 1 1 0 7 = some m →
        m.new_state = 7 ∧ m.layer_index = 0) :=
  growth_gates_iff_thresholds Nat 2 1 1 10 4 4 5 1 1 0 7 7

/-- Claim C3: after a committed growth step the sanity assertion passes iff
the new training loss is strictly less than 1.001 times the previous loss
for a width modification, and strictly less than 1.2 times the previous
loss for a depth modification; otherwise it fails fatally. -/
theorem sanity_checks_bound_loss (prev_loss new_loss : ℚ)
    (hpos : 0 < prev_loss) :
    (width_sanity_ok prev_loss new_loss = true ↔
      new_loss < 1.001 * prev_loss)
    ∧ (depth_sanity_ok prev_loss new_loss = true ↔
      new_loss < 1.2 * prev_loss) := by
  constructor
  · simp only [width_sanity_ok, decide_eq_true_eq]
    rw [div_lt_iff₀ hpos]
  · simp only [depth_sanity_ok, decide_eq_true_eq]
    rw [div_lt_iff₀ hpos]

/-- Witness for C3 at `prev_loss = 2`, `new_loss = 1`. -/
theorem sanity_checks_bound_loss_witness :
    (width_sanity_ok 2 1 = true ↔ (1 : ℚ) < 1.001 * 2)
    ∧ (depth_sanity_ok 2 1 = true ↔ (1 : ℚ) < 1.2 * 2) :=
  sanity_checks_bound_loss 2 1 (by norm_num)

/-- Claim C5 is violated by the code: `body_fun` of `kfac_direct_sgd`
computes the next step size from the closure-captured initial `eps`, not
from `state.eps`, so with initial step size 1 and r-score sequence
`[1, 1/2, 1]` the step size is `1/3` after two iterations and jumps back
to `1` after the third, even though the r-score strictly increased there
(so the claimed "next equals current" and "never increases" both fail). -/
theorem kfac_direct_sgd_eps_jumps_back_up :
    (sgd_run 1 [1, 1/2]).eps = 1/3
    ∧ (sgd_run 1 [1, 1/2, 1]).eps = 1
    ∧ rscore_increased 1 (1/2) = true := by
  refine ⟨?_, ?_, ?_⟩ <;> norm_num [sgd_run, sgd_body_fun, rscore_increased]

lemma findFirstEnabled_eq_none_iff (l : List (Option Nat)) :
    findFirstEnabled l = none ↔ ∀ x ∈ l, x = none := by
  induction l with
  | nil => simp [findFirstEnabled]
  | cons hd tl ih =>
    cases hd with
    | some v => simp [findFirstEnabled]
    | none => simp [findFirstEnabled, ih]

lemma findFirstEnabled_spec (l : List (Option Nat)) (j : Nat)
    (h : findFirstEnabled l = some j) :
    (∃ v, l[j]? = some (some v)) ∧ ∀ i < j, l[i]? = some none := by
  induction l generalizing j with
  | nil => simp [findFirstEnabled] at h
  | cons hd tl ih =>
    cases hd with
    | some v =>
      simp only [findFirstEnabled, Option.some.injEq] at h
      subst h
      exact ⟨⟨v, by simp⟩, fun i hi => absurd hi (Nat.not_lt_zero i)⟩
    | none =>
      simp only [findFirstEnabled, Option.map_eq_some'] at h
      obtain ⟨j', hj', rfl⟩ := h
      obtain ⟨⟨v, hv⟩, hbefore⟩ := ih j' hj'
      refine ⟨⟨v, by simpa using hv⟩, ?_⟩
      intro i hi
      cases i with
      | zero => simp
      | succ k =>
        simpa using hbefore k (Nat.lt_of_succ_lt_succ hi)

lemma lastEnabled_eq_none_iff (l : List (Option Nat)) :
    lastEnabled l = none ↔ ∀ x ∈ l, x = none := by
  induction l with
  | nil => simp [lastEnabled]
  | cons hd tl ih =>
    cases htl : lastEnabled tl with
    | some j =>
      simp only [lastEnabled, htl]
      have : ¬ ∀ x ∈ tl, x = none := fun hall => by
        rw [(ih).mpr hall] at htl; cases htl
      simp_all
    | none =>
      have htlall := ih.mp htl
      cases hd with
      | some v => simp [lastEnabled, htl]
      | none =>
        simp only [lastEnabled, htl, Option.isSome_none, Bool.false_eq_true,
          if_false, List.mem_cons, true_iff]
        intro x hx
        rcases hx with rfl | hx
        · rfl
        · exact htlall x hx

lemma lastEnabled_spec (l : List (Option Nat)) (j : Nat)
    (h : lastEnabled l = some j) :
    (∃ v, l[j]? = some (some v))
      ∧ ∀ i, j < i → i < l.length → l[i]? = some none := by
  induction l generalizing j with
  | nil => simp [lastEnabled] at h
  | cons hd tl ih =>
    cases htl : lastEnabled tl with
    | some j' =>
      simp only [lastEnabled, htl, Option.some.injEq] at h
      subst h
      obtain ⟨⟨v, hv⟩, hafter⟩ := ih j' htl
      refine ⟨⟨v, by simpa using hv⟩, ?_⟩
      intro i hji hilen
      cases i with
      | zero => exact absurd hji (Nat.not_lt_zero _)
      | succ k =>
        simpa using hafter k (Nat.lt_of_succ_lt_succ hji)
          (by simpa using Nat.lt_of_succ_lt_succ hilen)
    | none =>
      have htlall := (lastEnabled_eq_none_iff tl).mp htl
      cases hd with
      | some v =>
        simp only [lastEnabled, htl, if_pos (Option.isSome_some)] at h
        cases h
        refine ⟨⟨v, by simp⟩, ?_⟩
        intro i hji hilen
        cases i with
        | zero => exact absurd hji (Nat.lt_irrefl 0)
        | succ k =>
          have hk : k < tl.length := by simpa using Nat.lt_of_succ_lt_succ hilen
          have : tl[k] ∈ tl := List.getElem_mem hk
          have := htlall _ this
          simp [List.getElem?_eq_getElem hk, this]
      | none =>
        simp [lastEnabled, htl] at h

lemma lastEnabled_eq_some (l : List (Option Nat)) (i : Nat)
    (hen : ∃ v, l[i]? = some (some v))
    (hafter : ∀ j, i < j → j < l.length → l[j]? = some none) :
    lastEnabled l = some i := by
  induction l generalizing i with
  | nil => obtain ⟨v, hv⟩ := hen; simp at hv
  | cons hd tl ih =>
    cases i with
    | zero =>
      obtain ⟨v, hv⟩ := hen
      simp only [List.getElem?_cons_zero, Option.some.injEq] at hv
      subst hv
      have htl : lastEnabled tl = none := by
        rw [lastEnabled_eq_none_iff]
        intro x hx
        obtain ⟨k, hk⟩ := List.mem_iff_getElem?.mp hx
        have hklen : k < tl.length := (List.getElem?_eq_some_iff.mp hk).1
        have := hafter (k + 1) (Nat.succ_pos k) (by simpa using Nat.succ_lt_succ hklen)
        simp only [List.getElem?_cons_succ] at this
        rw [hk] at this
        exact Option.some_injective _ this
      simp [lastEnabled, htl]
    | succ i' =>
      have hen' : ∃ v, tl[i']? = some (some v) := by simpa using hen
      have hafter' : ∀ j, i' < j → j < tl.length → tl[j]? = some none := by
        intro j hj hjlen
        have := hafter (j + 1) (Nat.succ_lt_succ hj)
          (by simpa using Nat.succ_lt_succ hjlen)
        simpa using this
      have htl := ih i' hen' hafter'
      simp [lastEnabled, htl]

/-- Claim C6: whenever some slot after `layer_index` is enabled,
`in_out_indices` returns `(in_index, out_index)` with
`in_index ≤ layer_index < out_index`, `contents[out_index]` enabled and
the nearest following enabled slot, and `in_index` the input boundary
derived from the nearest preceding enabled slot (0 when none precedes);
it fails (raises, embedded as `none`) when no following enabled slot
exists. -/
theorem in_out_indices_spec (contents : List (Option Nat)) (li : Nat)
    (hli : li < contents.length) :
    ((∀ x ∈ contents.drop (li + 1), x = none) →
      in_out_indices contents li = none)
    ∧ ((contents.drop (li + 1)).any (fun c => c.isSome) = true →
      ∃ ii oi, in_out_indices contents li = some (ii, oi)
        ∧ ii ≤ li ∧ li < oi
        ∧ (∃ v, contents[oi]? = some (some v))
        ∧ (∀ j, li < j → j < oi → contents[j]? = some none)
        ∧ ((∀ j, j < li → contents[j]? = some none) → ii = 0)
        ∧ (∀ i, (∃ v, contents[i]? = some (some v)) → i < li →
            (∀ j, i < j → j < li → contents[j]? = some none) → ii = i + 1)) := by
  constructor
  · intro hall
    have hnone : findFirstEnabled (contents.drop (li + 1)) = none :=
      (findFirstEnabled_eq_none_iff _).mpr hall
    simp [in_out_indices, hnone]
  · intro hany
    have hne : findFirstEnabled (contents.drop (li + 1)) ≠ none := by
      intro hnone
      have hall := (findFirstEnabled_eq_none_iff _).mp hnone
      simp only [List.any_eq_true] at hany
      obtain ⟨x, hx, hxs⟩ := hany
      rw [hall x hx] at hxs
      simp at hxs
    obtain ⟨j, hj⟩ := Option.ne_none_iff_exists'.mp hne
    obtain ⟨⟨v, hv⟩, hbefore⟩ := findFirstEnabled_spec _ j hj
    refine ⟨in_index_of contents li, li + 1 + j,
      by simp [in_out_indices, hj], ?_, ?_, ?_, ?_, ?_, ?_⟩
    · unfold in_index_of
      cases hle : lastEnabled (contents.take li) with
      | none => exact Nat.zero_le li
      | some i =>
        obtain ⟨⟨w, hw⟩, _⟩ := lastEnabled_spec _ i hle
        have hilt : i < (contents.take li).length :=
          (List.getElem?_eq_some_iff.mp hw).1
        have : i < li := lt_of_lt_of_le hilt (by simp [List.length_take_le])
        exact this
    · omega
    · exact ⟨v, by rw [← List.getElem?_drop]; exact hv⟩
    · intro k hk1 hk2
      have hkd : k = li + 1 + (k - (li + 1)) := by omega
      rw [hkd, ← List.getElem?_drop]
      exact hbefore _ (by omega)
    · intro hnoneb
      unfold in_index_of
      cases hle : lastEnabled (contents.take li) with
      | none => rfl
      | some i =>
        obtain ⟨⟨w, hw⟩, _⟩ := lastEnabled_spec _ i hle
        have hilt : i < (contents.take li).length :=
          (List.getElem?_eq_some_iff.mp hw).1
        have hilt' : i < li := lt_of_lt_of_le hilt (by simp [List.length_take_le])
        rw [List.getElem?_take_of_lt hilt'] at hw
        rw [hnoneb i hilt'] at hw
        cases hw
    · intro i ⟨w, hw⟩ hilt hmax
      have htake : (contents.take li)[i]? = some (some w) := by
        rw [List.getElem?_take_of_lt hilt]; exact hw
      have hlen : (contents.take li).length = li :=
        List.length_take_of_le (Nat.le_of_lt hli)
      have hle : lastEnabled (contents.take li) = some i := by
        apply lastEnabled_eq_some _ i ⟨w, htake⟩
        intro k hik hklen
        rw [hlen] at hklen
        rw [List.getElem?_take_of_lt hklen]
        exact hmax k hik hklen
      unfold in_index_of
      rw [hle]

/-- Witness for C6 at `contents = [some 2, none, some 3]`, site 1. -/
theorem in_out_indices_spec_witness :
    ∃ ii oi,
      in_out_indices ([some 2, none, some 3] : List (Option Nat)) 1
          = some (ii, oi)
        ∧ ii ≤ 1 ∧ 1 < oi
        ∧ (∃ v, ([some 2, none, some 3] : List (Option Nat))[oi]?
            = some (some v))
        ∧ (∀ j, 1 < j → j < oi →
            ([some 2, none, some 3] : List (Option Nat))[j]? = some none)
        ∧ ((∀ j, j < 1 →
            ([some 2, none, some 3] : List (Option Nat))[j]? = some none) →
            ii = 0)
        ∧ (∀ i, (∃ v, ([some 2, none, some 3] : List (Option Nat))[i]?
              = some (some v)) → i < 1 →
            (∀ j, i < j → j < 1 →
              ([some 2, none, some 3] : List (Option Nat))[j]? = some none) →
            ii = i + 1) :=
  (in_out_indices_spec ([some 2, none, some 3] : List (Option Nat)) 1
    (by decide)).2 (by decide)

/-- Claim C4: after a MALA burst with acceptance rate `r` and step size `lr`,
the next step size is `lr * 1.3` when `r > 0.6 + 0.3`, `lr / 1.3` when
`r < 0.6 - 0.3`, and exactly `lr` when `|r - 0.6| ≤ 0.3`. -/
theorem mala_lr_controller (r lr : ℚ) :
    (r > 0.6 + 0.3 → mala_next_lr r lr = lr * 1.3)
    ∧ (r < 0.6 - 0.3 → mala_next_lr r lr = lr / 1.3)
    ∧ (|r - 0.6| ≤ 0.3 → mala_next_lr r lr = lr) := by
  have hun : mala_next_lr r lr =
      if |r - 0.6| > 0.3 then (if r > 0.6 then lr * 1.3 else lr / 1.3)
      else lr := rfl
  refine ⟨?_, ?_, ?_⟩ <;> intro h <;>
    · rw [hun]
      rcases abs_cases (r - (0.6 : ℚ)) with ⟨he, h0⟩ | ⟨he, h0⟩ <;>
        split_ifs with h1 h2 <;> first
          | rfl
          | (exfalso; rw [he] at h1; norm_num at h h1 ⊢;
             try norm_num at h2
             all_goals linarith)

/-- Witness for C4 at concrete acceptance rates. -/
theorem mala_lr_controller_witness :
    mala_next_lr 1 2 = 2 * 1.3
    ∧ mala_next_lr 0 2 = 2 / 1.3
    ∧ mala_next_lr 0.5 2 = 2 :=
  ⟨(mala_lr_controller 1 2).1 (by norm_num),
   (mala_lr_controller 0 2).2.1 (by norm_num),
   (mala_lr_controller 0.5 2).2.2 (by rw [show (0.5 : ℚ) - 0.6 = -(0.1 : ℚ) by norm_num]; rw [abs_neg]; rw [abs_of_pos (by norm_num)]; norm_num)⟩

lemma firstTrueIdx_spec (l : List Bool) (h : l.any (fun b => b) = true) :
    l[firstTrueIdx l]? = some true ∧ ∀ j < firstTrueIdx l, l[j]? = some false := by
  induction l with
  | nil => simp at h
  | cons hd tl ih =>
    cases hd with
    | true =>
      have h0 : firstTrueIdx (true :: tl) = 0 := by
        simp [firstTrueIdx, List.findIdx_cons]
      refine ⟨by rw [h0]; simp, ?_⟩
      intro j hj
      rw [h0] at hj
      exact absurd hj (Nat.not_lt_zero j)
    | false =>
      simp only [List.any_cons, Bool.false_or] at h
      obtain ⟨hmem, hbefore⟩ := ih h
      have hidx : firstTrueIdx (false :: tl) = firstTrueIdx tl + 1 := by
        simp [firstTrueIdx, List.findIdx_cons]
      refine ⟨by rw [hidx]; simpa using hmem, ?_⟩
      intro j hj
      rw [hidx] at hj
      cases j with
      | zero => simp
      | succ k => simpa using hbefore k (Nat.lt_of_succ_lt_succ hj)

/-- Claim C7: `Proposer.embed_feature` splices the feature into the slot at
the first null (inactive) index of the layer's null mask, fails (assertion)
when the layer is dormant or when no null slot remains, and never writes to
any other slot index or any other layer. -/
theorem embed_feature_spec (F : Type) (state : List (EmbLayer F)) (f : F)
    (li : Nat) (layer : EmbLayer F)
    (hli : state[li]? = some layer)
    (hlen : layer.null.length = layer.slots.length) :
    ((layer.dormant = true ∨ layer.null.any (fun b => b) = false) →
      embed_feature F state f li = none)
    ∧ (layer.dormant = false → layer.null.any (fun b => b) = true →
      ∃ idx, embed_feature F state f li
          = some (state.set li (insert_feature F layer f idx))
        ∧ layer.null[idx]? = some true
        ∧ (∀ j < idx, layer.null[j]? = some false)
        ∧ (insert_feature F layer f idx).slots[idx]? = some (some f)
        ∧ (∀ j, j ≠ idx →
            (insert_feature F layer f idx).slots[j]? = layer.slots[j]?)
        ∧ (∀ k, k ≠ li →
            (state.set li (insert_feature F layer f idx))[k]? = state[k]?)) := by
  constructor
  · rintro (hdorm | hnull)
    · simp [embed_feature, hli, hdorm]
    · simp [embed_feature, hli, hnull]
  · intro hdorm hany
    obtain ⟨hmem, hbefore⟩ := firstTrueIdx_spec layer.null hany
    have hidxlt : firstTrueIdx layer.null < layer.null.length :=
      (List.getElem?_eq_some_iff.mp hmem).1
    have hidxlt' : firstTrueIdx layer.null < layer.slots.length :=
      hlen ▸ hidxlt
    refine ⟨firstTrueIdx layer.null, ?_, hmem, hbefore, ?_, ?_, ?_⟩
    · simp [embed_feature, hli, hdorm, hany]
    · simp [insert_feature, List.getElem?_set_self hidxlt']
    · intro j hj
      simp [insert_feature, List.getElem?_set_ne (Ne.symm hj)]
    · intro k hk
      exact List.getElem?_set_ne (fun h => hk h.symm)

/-- Witness for C7: a single non-dormant layer whose null mask is
`[false, true]`; the feature lands in slot 1. -/
theorem embed_feature_spec_witness :
    ∃ idx,
      embed_feature Nat [⟨false, [false, true], [some 5, none]⟩] 9 0
          = some ([⟨false, [false, true], [some 5, none]⟩].set 0
              (insert_feature Nat ⟨false, [false, true], [some 5, none]⟩ 9 idx))
        ∧ ([false, true] : List Bool)[idx]? = some true
        ∧ (∀ j < idx, ([false, true] : List Bool)[j]? = some false)
        ∧ (insert_feature Nat ⟨false, [false, true], [some 5, none]⟩ 9
            idx).slots[idx]? = some (some 9)
        ∧ (∀ j, j ≠ idx →
            (insert_feature Nat ⟨false, [false, true], [some 5, none]⟩ 9
              idx).slots[j]?
              = ([some 5, none] : List (Option Nat))[j]?)
        ∧ (∀ k, k ≠ 0 →
            (([⟨false, [false, true], [some 5, none]⟩] :
                List (EmbLayer Nat)).set 0
              (insert_feature Nat ⟨false, [false, true], [some 5, none]⟩ 9
                idx))[k]?
              = ([⟨false, [false, true], [some 5, none]⟩] :
                  List (EmbLayer Nat))[k]?) :=
  (embed_feature_spec Nat [⟨false, [false, true], [some 5, none]⟩] 9 0
    ⟨false, [false, true], [some 5, none]⟩ rfl rfl).2 rfl rfl

/-- Claim C8 is violated by the code: the restore guard (lines 907-909)
compares the restored contents' final entry with itself, so it can never
fire.  Here the restored final-output width is 5 while the configured one
is 3 — a mismatch — yet the guard reports no rejection and training
proceeds. -/
theorem restore_guard_never_fires :
    restore_rejects Nat ⟨7, [some 2, some 5], 0⟩ = false
    ∧ ([some 2, some 5] : List (Option Nat)).getLastD none ≠ some 3 := by
  constructor
  · decide
  · decide

/-- Counterexample to claim C9 as stated: at `p = 1`, `s = 1000` (and
`c = l = v = 0`), the hypothesis `s > 1e-3` holds but the recovered scale
misses `s` by about `0.999`, far beyond the `1e-4` tolerance. -/
theorem locate_feature_roundtrip_fails_at_large_scale :
    (1e-3 : ℚ) < 1000
    ∧ |(locate_feature (make_feature 1 1000 0 0 0)).2 - 1000| > 1e-4 := by
  constructor
  · norm_num
  · have h : (locate_feature (make_feature 1 1000 0 0 0)).2 - 1000
        = -(999999001000 / 1001000000001 : ℚ) := by
      norm_num [locate_feature, locate_linear, make_feature]
    rw [gt_iff_lt, lt_abs, h]
    right
    norm_num

/-- Claim C9, amended: `locate_feature` after `make_feature(p, s, c, l, v)`
recovers the position exactly and the scale within `1e-4` for scales
`1e-3 < s ≤ 10` (the upper bound the counterexample forces: in exact
arithmetic the recovered scale is `1/(1e-6 + 1/(1e-6 + s))`, whose error
grows like `1e-6 * s^2` and exceeds `1e-4` for large `s`). -/
theorem locate_feature_roundtrip (p s c l v : ℚ)
    (hs : 1e-3 < s) (hs10 : s ≤ 10) :
    (locate_feature (make_feature p s c l v)).1 = p
    ∧ |(locate_feature (make_feature p s c l v)).2 - s| ≤ 1e-4 := by
  have ha : (1e-6 : ℚ) = 1/1000000 := by norm_num
  have hspos : (0 : ℚ) < s := by
    have : (0 : ℚ) < 1e-3 := by norm_num
    linarith
  have hden : (0 : ℚ) < 1e-6 + s := by
    have : (0 : ℚ) < 1e-6 := by norm_num
    linarith
  have hk : (0 : ℚ) < 1 / (1e-6 + s) := by positivity
  constructor
  · show -(-p * (1 / (1e-6 + s))) / (1 / (1e-6 + s)) = p
    field_simp
  · show |1 / (1e-6 + 1 / (1e-6 + s)) - s| ≤ 1e-4
    have hd3 : (0 : ℚ) < 1e-6 * (1e-6 + s) + 1 := by positivity
    have hne1 : (1e-6 + 1 / (1e-6 + s)) ≠ 0 := by positivity
    have hne2 : (1e-6 * (1e-6 + s) + 1) ≠ 0 := ne_of_gt hd3
    have hne3 : (1e-6 + s) ≠ 0 := ne_of_gt hden
    have hdiff : 1 / (1e-6 + 1 / (1e-6 + s)) - s
        = (1e-6 * (1 - s * (1e-6 + s))) / (1e-6 * (1e-6 + s) + 1) := by
      field_simp
      ring
    rw [hdiff, abs_le]
    have hsq : s * (1e-6 + s) ≤ 10 * (1e-6 + 10) := by nlinarith
    have hsqpos : (0 : ℚ) < s * (1e-6 + s) := by positivity
    constructor
    · rw [le_div_iff₀ hd3]
      nlinarith
    · rw [div_le_iff₀ hd3]
      nlinarith

/-- Witness for the amended C9 at `p = 2`, `s = 1`. -/
theorem locate_feature_roundtrip_witness :
    (locate_feature (make_feature 2 1 0 0 0)).1 = 2
    ∧ |(locate_feature (make_feature 2 1 0 0 0)).2 - 1| ≤ 1e-4 :=
  locate_feature_roundtrip 2 1 0 0 0 (by norm_num) (by norm_num)

lemma select_rows_length (α : Type) (dataset : List α) (idxs : List Nat)
    (h : ∀ i ∈ idxs, i < dataset.length) :
    (select_rows α dataset idxs).length = idxs.length := by
  induction idxs with
  | nil => rfl
  | cons hd tl ih =>
    have hhd : hd < dataset.length := h hd (List.mem_cons_self hd tl)
    simp only [select_rows, List.filterMap_cons,
      List.getElem?_eq_getElem hhd]
    simp only [select_rows] at ih
    simp [ih (fun i hi => h i (List.mem_cons_of_mem hd hi))]

lemma flatten_bindices (pindices : List Nat) (b : Nat) :
    ∀ n, n * b ≤ pindices.length →
      ((List.range n).map (fun k => bindices pindices b k)).flatten
        = pindices.take (n * b) := by
  intro n
  induction n with
  | zero => simp
  | succ m ih =>
    intro hle
    have hmb : m * b ≤ pindices.length := by
      calc m * b ≤ (m + 1) * b := Nat.mul_le_mul_right b (Nat.le_succ m)
      _ ≤ pindices.length := hle
    rw [List.range_succ, List.map_append, List.flatten_append,
      ih hmb]
    simp only [List.map_cons, List.map_nil, List.flatten_cons,
      List.flatten_nil, List.append_nil]
    rw [show (m + 1) * b = m * b + b by ring, List.take_add]
    rfl

/-- Claim C10: with a non-`None` batch size `b`, `batches()` yields exactly
`len(dataset) / b` batches — the number `num_batches()` returns — each with
exactly `b` examples drawn at pairwise-disjoint positions of one
permutation of the dataset (their index lists concatenate to the first
`num_batches * b` entries of the permutation, which are pairwise distinct),
and the trailing `len mod b` entries of the permutation are never yielded;
with batch size `None`, `batches()` yields the whole dataset once and
`num_batches()` returns 1. -/
theorem sampler_batches_spec (α β : Type) (s : Sampler α β)
    (pindices : List Nat) :
    (s.batch_size = none →
      batches α β s pindices = [(s.dataset, s.labels)]
      ∧ num_batches α β s = 1)
    ∧ (∀ b, s.batch_size = some b → 0 < b →
        pindices.Perm (List.range s.dataset.length) →
        s.labels.length = s.dataset.length →
        (batches α β s pindices).length = num_batches α β s
        ∧ (∀ p ∈ batches α β s pindices, p.1.length = b ∧ p.2.length = b)
        ∧ ((List.range (num_batches α β s)).map
            (fun k => bindices pindices b k)).flatten
            = pindices.take (num_batches α β s * b)
        ∧ (pindices.take (num_batches α β s * b)).Nodup
        ∧ (∀ i ∈ pindices.drop (num_batches α β s * b),
            i ∉ pindices.take (num_batches α β s * b))) := by
  constructor
  · intro hnone
    exact ⟨by simp [batches, hnone], by simp [num_batches, hnone]⟩
  · intro b hb hbpos hperm hlab
    have hplen : pindices.length = s.dataset.length := by
      simpa using hperm.length_eq
    have hnb : num_batches α β s = s.dataset.length / b := by
      simp [num_batches, hb]
    have hmem_lt : ∀ i ∈ pindices, i < s.dataset.length := by
      intro i hi
      have := hperm.mem_iff.mp hi
      simpa using this
    have hbind_sub : ∀ k, ∀ i ∈ bindices pindices b k, i < s.dataset.length := by
      intro k i hi
      apply hmem_lt
      exact List.mem_of_mem_drop (List.mem_of_mem_take hi)
    have hbind_len : ∀ k < s.dataset.length / b,
        (bindices pindices b k).length = b := by
      intro k hk
      have h1 : (k + 1) * b ≤ s.dataset.length := by
        calc (k + 1) * b ≤ s.dataset.length / b * b :=
              Nat.mul_le_mul_right b (Nat.succ_le_of_lt hk)
        _ ≤ s.dataset.length := Nat.div_mul_le_self _ _
      have h2 : b + k * b ≤ s.dataset.length := by
        calc b + k * b = (k + 1) * b := by ring
        _ ≤ s.dataset.length := h1
      simp only [bindices, List.length_take, List.length_drop, hplen]
      exact Nat.min_eq_left (Nat.le_sub_of_add_le h2)
    have hnodup : pindices.Nodup :=
      hperm.nodup_iff.mpr (List.nodup_range _)
    refine ⟨?_, ?_, ?_, ?_, ?_⟩
    · simp [batches, hb, hnb]
    · intro p hp
      simp only [batches, hb, List.mem_map, List.mem_range] at hp
      obtain ⟨k, hk, rfl⟩ := hp
      constructor
      · rw [select_rows_length α s.dataset _ (hbind_sub k), hbind_len k hk]
      · rw [select_rows_length β s.labels _
          (fun i hi => hlab ▸ hbind_sub k i hi), hbind_len k hk]
    · rw [hnb]
      exact flatten_bindices pindices b (s.dataset.length / b)
        (by rw [hplen]; exact Nat.div_mul_le_self _ _)
    · exact (List.take_sublist _ _).nodup hnodup
    · intro i hidrop hitake
      have : pindices.Nodup := hnodup
      rw [← List.take_append_drop (num_batches α β s * b) pindices] at this
      have hdisj := List.nodup_append.mp this
      exact hdisj.2.2 hitake hidrop

/-- Witness for C10: five examples, batch size 2, permutation
`[4, 2, 0, 3, 1]`; two full batches are produced and the trailing
permutation entry `1` is never yielded. -/
theorem sampler_batches_spec_witness :
    (batches Nat Nat ⟨[10, 20, 30, 40, 50], [0, 1, 0, 1, 0], some 2⟩
        [4, 2, 0, 3, 1]).length
      = num_batches Nat Nat ⟨[10, 20, 30, 40, 50], [0, 1, 0, 1, 0], some 2⟩
    ∧ (∀ p ∈ batches Nat Nat ⟨[10, 20, 30, 40, 50], [0, 1, 0, 1, 0], some 2⟩
        [4, 2, 0, 3, 1], p.1.length = 2 ∧ p.2.length = 2)
    ∧ ((List.range (num_batches Nat Nat
          ⟨[10, 20, 30, 40, 50], [0, 1, 0, 1, 0], some 2⟩)).map
        (fun k => bindices [4, 2, 0, 3, 1] 2 k)).flatten
        = ([4, 2, 0, 3, 1] : List Nat).take
            (num_batches Nat Nat
              ⟨[10, 20, 30, 40, 50], [0, 1, 0, 1, 0], some 2⟩ * 2)
    ∧ (([4, 2, 0, 3, 1] : List Nat).take
        (num_batches Nat Nat
          ⟨[10, 20, 30, 40, 50], [0, 1, 0, 1, 0], some 2⟩ * 2)).Nodup
    ∧ (∀ i ∈ ([4, 2, 0, 3, 1] : List Nat).drop
        (num_batches Nat Nat
          ⟨[10, 20, 30, 40, 50], [0, 1, 0, 1, 0], some 2⟩ * 2),
        i ∉ ([4, 2, 0, 3, 1] : List Nat).take
          (num_batches Nat Nat
            ⟨[10, 20, 30, 40, 50], [0, 1, 0, 1, 0], some 2⟩ * 2)) :=
  (sampler_batches_spec Nat Nat ⟨[10, 20, 30, 40, 50], [0, 1, 0, 1, 0], some 2⟩
    [4, 2, 0, 3, 1]).2 2 rfl (by norm_num) (by decide) (by decide)

end SENN
